import Mathlib

/-!
Torre de Hanoi — verification of the puzzle engine and score service.

Shallow embedding of the repository's three source files:

* `script.js` (the browser puzzle engine, class `TowerOfHanoi`);
* `server.js` (the hardened score service: validation, rate limit, capacity
  eviction);
* the simple score-service variant (no time upper bound, no rate limit, no
  capacity cap, plus a bulk-delete endpoint).

Modelling conventions:

* A disk is identified by its size rank `1..numDisks`.  The DOM element's
  `style.width` is `rank * 25 + 20` pixels (`initializeGame`), re-read by
  `isValidMove` through `parseInt`; we embed the width computation as
  `diskWidth`.
* A JS array used as a stack (`push`/`pop` at the end, bottom of the peg at
  index 0) is embedded as a `List` with the TOP of the peg at the HEAD, so JS
  `push` is `cons` and JS `pop` takes the head.  "Sorted descending in size
  from bottom to top" therefore reads as: the head-first list is strictly
  increasing.
* JS numbers are embedded as `Int` (integers cover every value the claims
  concern; fractional doubles, NaN and Infinity are not modelled); JS strings
  as `String` (length counts code points rather than UTF-16 units — identical
  on the ASCII data at issue).  A dynamically-typed request field is a `JSVal`.
* Dates travel as numeric timestamps in seconds: the client's ISO-8601 string
  and SQLite's `datetime` values are abstracted to their epoch value, with
  `date > datetime("now", "-1 hour")` embedded as `date > now - 3600`.
* The SQLite table is a `List` of records; `INSERT` appends, `SELECT ... ORDER
  BY` is `mergeSort`, `LIMIT n` is `take n`.
-/

namespace Hanoi

/-- `this.numDisks = 6`. -/
def numDisks : Nat := 6

/-- `this.minMoves = Math.pow(2, this.numDisks) - 1`. -/
def minMoves : Nat := 2 ^ numDisks - 1

/-- `disk.style.width = (i * 25 + 20) px` in `initializeGame`; `isValidMove`
reads it back via `parseInt(disk.style.width)`. -/
def diskWidth (rank : Nat) : Nat := rank * 25 + 20

/-- `this.towers = [[], [], []]` — the three pegs.  Each list holds disk
ranks, head = top of the peg. -/
structure Towers where
  t0 : List Nat
  t1 : List Nat
  t2 : List Nat
deriving DecidableEq, Repr

/-- `this.towers[i]`. -/
def Towers.get (ts : Towers) : Fin 3 → List Nat
  | ⟨0, _⟩ => ts.t0
  | ⟨1, _⟩ => ts.t1
  | ⟨2, _⟩ => ts.t2

/-- Assignment to `this.towers[i]`. -/
def Towers.set (ts : Towers) : Fin 3 → List Nat → Towers
  | ⟨0, _⟩, l => { ts with t0 := l }
  | ⟨1, _⟩, l => { ts with t1 := l }
  | ⟨2, _⟩, l => { ts with t2 := l }

/-- All disks on the board, pegs concatenated. -/
def Towers.allDisks (ts : Towers) : Multiset Nat :=
  (ts.t0 : Multiset Nat) + (ts.t1 : Multiset Nat) + (ts.t2 : Multiset Nat)

/-- The stack built by `initializeGame`: the loop pushes disks `i = numDisks`
down to `1` onto tower 0, so the head-first (top-first) list is
`[1, 2, ..., numDisks]`. -/
def initialStack : List Nat := (List.range numDisks).map (· + 1)

/-- Towers after `initializeGame` on a cleared board. -/
def initTowers : Towers := ⟨initialStack, [], []⟩

/-- The mutable fields of the `TowerOfHanoi` instance that the puzzle logic
touches (`towers`, `selectedTower`, `moves`, `isPlaying`). -/
structure GameState where
  towers : Towers
  selectedTower : Option (Fin 3)
  moves : Nat
  isPlaying : Bool
deriving DecidableEq, Repr

/-- State after the constructor ran `initializeGame`. -/
def initialState : GameState :=
  { towers := initTowers, selectedTower := none, moves := 0, isPlaying := false }

/-- `startGame()` (timer/DOM effects dropped). -/
def startGame (s : GameState) : GameState :=
  if s.isPlaying then s else { s with isPlaying := true }

/-- `isValidMove(fromTower, toTower)`: compares the `parseInt`-ed widths of
the two top disks. -/
def isValidMove (ts : Towers) (fromT toT : Fin 3) : Bool :=
  if fromT = toT then false
  else if (ts.get fromT).isEmpty then false
  else if (ts.get toT).isEmpty then true
  else diskWidth ((ts.get fromT).headD 0) < diskWidth ((ts.get toT).headD 0)

/-- `moveDisk(fromTower, toTower)`: pop the top of `fromTower`, push it onto
`toTower` (reading `toTower` after the pop, exactly as the JS mutation order
does).  The `[]` case is unreachable: `moveDisk` is only called under
`isValidMove`. -/
def moveDisk (ts : Towers) (fromT toT : Fin 3) : Towers :=
  match ts.get fromT with
  | [] => ts
  | d :: rest =>
      let ts1 := ts.set fromT rest
      ts1.set toT (d :: ts1.get toT)

/-- `checkWin()`: `this.towers[2].length === this.numDisks`. -/
def checkWin (ts : Towers) : Bool := (ts.get 2).length == numDisks

/-- `handleTowerClick(towerIndex)` (DOM class toggling and displays dropped;
`handleWin` contributes its `isPlaying = false` effect). -/
def handleTowerClick (s : GameState) (towerIndex : Fin 3) : GameState :=
  if !s.isPlaying then s
  else
    match s.selectedTower with
    | none =>
        if 0 < (s.towers.get towerIndex).length then
          { s with selectedTower := some towerIndex }
        else s
    | some sel =>
        if isValidMove s.towers sel towerIndex then
          let ts := moveDisk s.towers sel towerIndex
          { towers := ts
            moves := s.moves + 1
            isPlaying := if checkWin ts then false else s.isPlaying
            selectedTower := none }
        else
          { s with selectedTower := none }

/-- `resetGame()`: clears every tower, zeroes the counters, clears the
selection and the playing flag, then `initializeGame()` rebuilds the stack on
tower 0.  The result does not depend on the incoming state. -/
def resetGame (_s : GameState) : GameState :=
  { towers := initTowers, selectedTower := none, moves := 0, isPlaying := false }

/-- A sequence of tower clicks, applied in order. -/
def runClicks (s : GameState) (cs : List (Fin 3)) : GameState :=
  cs.foldl handleTowerClick s

/-- A peg is well-formed when, read top-first, ranks strictly increase —
i.e. strictly decreasing size from bottom to top. -/
def sortedTower (l : List Nat) : Prop := List.Sorted (· < ·) l

instance (l : List Nat) : Decidable (sortedTower l) := by
  unfold sortedTower List.Sorted; infer_instance

/-- The board invariant: every peg sorted, and the pegs together hold exactly
the full disk set. -/
def towersInv (ts : Towers) : Prop :=
  sortedTower ts.t0 ∧ sortedTower ts.t1 ∧ sortedTower ts.t2 ∧
    ts.allDisks = (initialStack : Multiset Nat)

instance (ts : Towers) : Decidable (towersInv ts) := by
  unfold towersInv; infer_instance

/-- States reachable by clicking after starting a fresh game. -/
def Reachable (s : GameState) : Prop :=
  ∃ cs : List (Fin 3), runClicks (startGame initialState) cs = s

/-! ### Invariant preservation -/

theorem diskWidth_lt_iff {a b : Nat} : diskWidth a < diskWidth b ↔ a < b := by
  unfold diskWidth; omega

theorem sortedTower_of_cons {d : Nat} {l : List Nat} (h : sortedTower (d :: l)) :
    sortedTower l := h.of_cons

theorem sortedTower_cons {d : Nat} {l : List Nat} (hl : sortedTower l)
    (hv : l = [] ∨ diskWidth d < diskWidth (l.head?.getD 0)) :
    sortedTower (d :: l) := by
  cases l with
  | nil => simp [sortedTower]
  | cons x xs =>
      rcases hv with h | h
      · simp at h
      · have hdx : d < x := diskWidth_lt_iff.mp h
        unfold sortedTower at hl ⊢
        rw [List.sorted_cons] at hl ⊢
        refine ⟨?_, List.sorted_cons.mpr hl⟩
        intro b hb
        rcases List.mem_cons.mp hb with rfl | hb
        · exact hdx
        · exact hdx.trans (hl.1 b hb)

theorem towersInv_moveDisk {ts : Towers} {f t : Fin 3}
    (h : towersInv ts) (hv : isValidMove ts f t = true) :
    towersInv (moveDisk ts f t) := by
  obtain ⟨h0, h1, h2, hall⟩ := h
  rcases ts with ⟨l0, l1, l2⟩
  simp only [Towers.allDisks] at hall
  fin_cases f <;> fin_cases t <;> simp [isValidMove, Towers.get] at hv
  all_goals obtain ⟨hne, htop⟩ := hv
  · cases l0 with
    | nil => simp at hne
    | cons d rest =>
        simp only [List.head?_cons, Option.getD_some] at htop
        show towersInv (Towers.mk rest (d :: l1) l2)
        refine ⟨sortedTower_of_cons h0, sortedTower_cons h1 htop, h2, ?_⟩
        show (↑rest + ↑(d :: l1) + ↑l2 : Multiset Nat) = ↑initialStack
        rw [← hall]
        simp only [← Multiset.cons_coe, Multiset.cons_add, Multiset.add_cons]
  · cases l0 with
    | nil => simp at hne
    | cons d rest =>
        simp only [List.head?_cons, Option.getD_some] at htop
        show towersInv (Towers.mk rest l1 (d :: l2))
        refine ⟨sortedTower_of_cons h0, h1, sortedTower_cons h2 htop, ?_⟩
        show (↑rest + ↑l1 + ↑(d :: l2) : Multiset Nat) = ↑initialStack
        rw [← hall]
        simp only [← Multiset.cons_coe, Multiset.cons_add, Multiset.add_cons]
  · cases l1 with
    | nil => simp at hne
    | cons d rest =>
        simp only [List.head?_cons, Option.getD_some] at htop
        show towersInv (Towers.mk (d :: l0) rest l2)
        refine ⟨sortedTower_cons h0 htop, sortedTower_of_cons h1, h2, ?_⟩
        show (↑(d :: l0) + ↑rest + ↑l2 : Multiset Nat) = ↑initialStack
        rw [← hall]
        simp only [← Multiset.cons_coe, Multiset.cons_add, Multiset.add_cons]
  · cases l1 with
    | nil => simp at hne
    | cons d rest =>
        simp only [List.head?_cons, Option.getD_some] at htop
        show towersInv (Towers.mk l0 rest (d :: l2))
        refine ⟨h0, sortedTower_of_cons h1, sortedTower_cons h2 htop, ?_⟩
        show (↑l0 + ↑rest + ↑(d :: l2) : Multiset Nat) = ↑initialStack
        rw [← hall]
        simp only [← Multiset.cons_coe, Multiset.cons_add, Multiset.add_cons]
  · cases l2 with
    | nil => simp at hne
    | cons d rest =>
        simp only [List.head?_cons, Option.getD_some] at htop
        show towersInv (Towers.mk (d :: l0) l1 rest)
        refine ⟨sortedTower_cons h0 htop, h1, sortedTower_of_cons h2, ?_⟩
        show (↑(d :: l0) + ↑l1 + ↑rest : Multiset Nat) = ↑initialStack
        rw [← hall]
        simp only [← Multiset.cons_coe, Multiset.cons_add, Multiset.add_cons]
  · cases l2 with
    | nil => simp at hne
    | cons d rest =>
        simp only [List.head?_cons, Option.getD_some] at htop
        show towersInv (Towers.mk l0 (d :: l1) rest)
        refine ⟨h0, sortedTower_cons h1 htop, sortedTower_of_cons h2, ?_⟩
        show (↑l0 + ↑(d :: l1) + ↑rest : Multiset Nat) = ↑initialStack
        rw [← hall]
        simp only [← Multiset.cons_coe, Multiset.cons_add, Multiset.add_cons]

theorem towersInv_handleTowerClick {s : GameState} (i : Fin 3)
    (h : towersInv s.towers) : towersInv (handleTowerClick s i).towers := by
  unfold handleTowerClick
  split
  · exact h
  · cases s.selectedTower with
    | none =>
        dsimp only
        split
        · exact h
        · exact h
    | some sel =>
        dsimp only
        split
        · exact towersInv_moveDisk h (by assumption)
        · exact h

theorem towersInv_runClicks (s : GameState) (cs : List (Fin 3))
    (h : towersInv s.towers) : towersInv (runClicks s cs).towers := by
  induction cs generalizing s with
  | nil => exact h
  | cons c cs ih => exact ih _ (towersInv_handleTowerClick c h)

theorem Towers.get_two (ts : Towers) : ts.get 2 = ts.t2 := rfl

/-- Claim C1: For every sequence of tower clicks (selections and move attempts,
legal or illegal) starting from the freshly started initial state, every peg
stays sorted with strictly decreasing disk size from bottom to top, and the
three pegs together always hold exactly the full set of `numDisks = 6` disks
— none lost, none duplicated. -/
theorem c1_clicks_preserve_sorted_and_full (cs : List (Fin 3)) :
    sortedTower (runClicks (startGame initialState) cs).towers.t0 ∧
    sortedTower (runClicks (startGame initialState) cs).towers.t1 ∧
    sortedTower (runClicks (startGame initialState) cs).towers.t2 ∧
    (runClicks (startGame initialState) cs).towers.allDisks =
      (initialStack : Multiset Nat) :=
  towersInv_runClicks (startGame initialState) cs (by decide)

theorem isValidMove_iff (ts : Towers) (f t : Fin 3) :
    isValidMove ts f t = true ↔
      f ≠ t ∧ ts.get f ≠ [] ∧
        (ts.get t = [] ∨ (ts.get f).headD 0 < (ts.get t).headD 0) := by
  unfold isValidMove
  split_ifs with h1 h2 h3
  · simp [h1]
  · simp [List.isEmpty_iff.mp h2]
  · have hf : ts.get f ≠ [] := fun h => h2 (by simp [h])
    simp [h1, hf, List.isEmpty_iff.mp h3]
  · have hf : ts.get f ≠ [] := fun h => h2 (by simp [h])
    have ht : ts.get t ≠ [] := fun h => h3 (by simp [h])
    simp [h1, hf, ht, diskWidth_lt_iff]

theorem moveDisk_get {ts : Towers} {f t : Fin 3} (hft : f ≠ t) {d : Nat}
    {rest : List Nat} (hf : ts.get f = d :: rest) :
    (moveDisk ts f t).get f = rest ∧ (moveDisk ts f t).get t = d :: ts.get t ∧
      ∀ j, j ≠ f → j ≠ t → (moveDisk ts f t).get j = ts.get j := by
  rcases ts with ⟨l0, l1, l2⟩
  fin_cases f <;> fin_cases t <;>
    first
      | exact absurd rfl hft
      | (simp only [Towers.get] at hf
         subst hf
         refine ⟨rfl, rfl, ?_⟩
         intro j hj1 hj2
         fin_cases j <;>
           first
             | rfl
             | exact absurd rfl hj1
             | exact absurd rfl hj2)

/-- Claim C2: With the game active and peg `f` selected, clicking peg `t` is
the spec's `attemptMove(f, t)`: it is legal iff `f ≠ t`, peg `f` is non-empty,
and peg `t` is empty or its top disk is larger than peg `f`'s top disk; on a
legal move the top disk of `f` is popped and pushed onto `t`, other pegs are
untouched and the move counter increments; on an illegal attempt pegs and
counter are unchanged; in both cases the selection is cleared. -/
theorem c2_attempt_move (s : GameState) (f t : Fin 3)
    (hp : s.isPlaying = true) (hsel : s.selectedTower = some f) :
    (isValidMove s.towers f t = true ↔
        f ≠ t ∧ s.towers.get f ≠ [] ∧
          (s.towers.get t = [] ∨
            (s.towers.get f).headD 0 < (s.towers.get t).headD 0)) ∧
    (isValidMove s.towers f t = true →
        ∃ d rest, s.towers.get f = d :: rest ∧
          (handleTowerClick s t).towers.get f = rest ∧
          (handleTowerClick s t).towers.get t = d :: s.towers.get t ∧
          (∀ j, j ≠ f → j ≠ t →
            (handleTowerClick s t).towers.get j = s.towers.get j) ∧
          (handleTowerClick s t).moves = s.moves + 1 ∧
          (handleTowerClick s t).selectedTower = none) ∧
    (isValidMove s.towers f t = false →
        (handleTowerClick s t).towers = s.towers ∧
        (handleTowerClick s t).moves = s.moves ∧
        (handleTowerClick s t).selectedTower = none) := by
  refine ⟨isValidMove_iff s.towers f t, ?_, ?_⟩
  · intro hv
    obtain ⟨hft, hfne, -⟩ := (isValidMove_iff s.towers f t).mp hv
    obtain ⟨d, rest, hf⟩ : ∃ d rest, s.towers.get f = d :: rest := by
      cases hfe : s.towers.get f with
      | nil => exact absurd hfe hfne
      | cons d rest => exact ⟨d, rest, rfl⟩
    have hred : (handleTowerClick s t).towers = moveDisk s.towers f t ∧
        (handleTowerClick s t).moves = s.moves + 1 ∧
        (handleTowerClick s t).selectedTower = none := by
      unfold handleTowerClick
      simp [hp, hsel, hv]
    obtain ⟨hg1, hg2, hg3⟩ := moveDisk_get hft hf
    exact ⟨d, rest, hf, hred.1 ▸ hg1, hred.1 ▸ hg2,
      fun j hj1 hj2 => hred.1 ▸ hg3 j hj1 hj2, hred.2.1, hred.2.2⟩
  · intro hv
    unfold handleTowerClick
    simp [hp, hsel, hv]

/-- Witness for C2 at a concrete input: from the started initial state,
select peg 0 and move its top disk (rank 1) to peg 2. -/
theorem c2_attempt_move_witness :
    (handleTowerClick (handleTowerClick (startGame initialState) 0) 2).moves = 1 ∧
    (handleTowerClick (handleTowerClick (startGame initialState) 0) 2).selectedTower
      = none := by
  obtain ⟨-, hval, -⟩ :=
    c2_attempt_move (handleTowerClick (startGame initialState) 0) 0 2
      (by decide) (by decide)
  obtain ⟨d, rest, -, -, -, -, hm, hs⟩ := hval (by decide)
  refine ⟨?_, hs⟩
  simpa using hm

/-- Claim C3: For every reachable game state, `checkWin()` returns `true` iff
the goal peg (peg index 2) holds exactly all `numDisks = 6` disks. -/
theorem c3_checkWin_iff {s : GameState} (h : Reachable s) :
    checkWin s.towers = true ↔
      (s.towers.t2 : Multiset Nat) = (initialStack : Multiset Nat) := by
  obtain ⟨cs, rfl⟩ := h
  obtain ⟨-, -, -, hall⟩ :=
    towersInv_runClicks (startGame initialState) cs (by decide)
  set ts := (runClicks (startGame initialState) cs).towers with hts
  have hcard : ts.t0.length + ts.t1.length + ts.t2.length = 6 := by
    have h' := congrArg Multiset.card hall
    simp [Towers.allDisks, numDisks, initialStack] at h'
    omega
  constructor
  · intro hw
    have hlen : ts.t2.length = 6 := by
      simpa [checkWin, Towers.get_two, numDisks] using hw
    have h0 : ts.t0 = [] := by
      have : ts.t0.length = 0 := by omega
      simpa using this
    have h1 : ts.t1 = [] := by
      have : ts.t1.length = 0 := by omega
      simpa using this
    simpa [Towers.allDisks, h0, h1] using hall
  · intro h2
    have hlen : ts.t2.length = 6 := by
      have h' := congrArg Multiset.card h2
      simp [numDisks, initialStack] at h'
      omega
    simp [checkWin, Towers.get_two, numDisks, hlen]

/-- Witness for C3 at a concrete input: the started initial state is
reachable (empty click sequence); there `checkWin` is false and peg 2 does
not hold the full disk set. -/
theorem c3_checkWin_iff_witness :
    (checkWin (startGame initialState).towers = true ↔
      ((startGame initialState).towers.t2 : Multiset Nat) =
        (initialStack : Multiset Nat)) :=
  c3_checkWin_iff ⟨[], rfl⟩

/-- Claim C4: After `resetGame()` from any game state, the start peg (index 0)
holds exactly the `numDisks = 6` disks in strictly decreasing size from
bottom to top, the other two pegs are empty, the move counter is zero, the
playing flag is cleared, and no peg is selected. -/
theorem c4_reset_restores_initial (s : GameState) :
    (resetGame s).towers.t0 = initialStack ∧
    sortedTower (resetGame s).towers.t0 ∧
    (resetGame s).towers.t0.length = numDisks ∧
    (resetGame s).towers.t1 = [] ∧
    (resetGame s).towers.t2 = [] ∧
    (resetGame s).moves = 0 ∧
    (resetGame s).isPlaying = false ∧
    (resetGame s).selectedTower = none := by
  refine ⟨rfl, ?_, ?_, rfl, rfl, rfl, rfl, rfl⟩
  · show sortedTower initialStack
    decide
  · show initialStack.length = numDisks
    decide

end Hanoi

namespace Score

/-- A JS value as it can appear in a field of a JSON request body.  Numbers
are rationals (NaN and Infinity are not modelled); a missing field
destructures to `vundef`. -/
inductive JSVal where
  | vnull
  | vundef
  | vbool (b : Bool)
  | vnum (x : Int)
  | vstr (s : String)
deriving DecidableEq, Repr

/-- JS truthiness: `!v` in the source is `¬ v.truthy`. -/
def JSVal.truthy : JSVal → Bool
  | .vnull => false
  | .vundef => false
  | .vbool b => b
  | .vnum x => x != 0
  | .vstr s => s != ""

/-- JS `s.trim()`: strip leading and trailing whitespace, modelled on the
string's character list (kept evaluable; `String.trim` agrees on this
repository's data). -/
def jsTrim (s : String) : String :=
  ⟨((s.data.dropWhile Char.isWhitespace).reverse.dropWhile
      Char.isWhitespace).reverse⟩

/-- `typeof v === 'string'`. -/
def JSVal.isString : JSVal → Bool
  | .vstr _ => true
  | _ => false

/-- `typeof v === 'number'`. -/
def JSVal.isNumber : JSVal → Bool
  | .vnum _ => true
  | _ => false

/-- The string payload of a value (sources only consult it when the value is
a string). -/
def JSVal.asString : JSVal → String
  | .vstr s => s
  | _ => ""

/-- The numeric payload of a value (sources only consult it when the value is
a number). -/
def JSVal.asNumber : JSVal → Int
  | .vnum x => x
  | _ => 0

/-- `new Date(v).getTime()`: dates are abstracted to numeric epoch seconds,
so a numeric value parses to itself and anything else to NaN (`none`). -/
def jsDate : JSVal → Option Int
  | .vnum x => some x
  | _ => none

/-- A `POST /api/scores` request body `{name, time, moves, date}`. -/
structure ScoreBody where
  name : JSVal
  time : JSVal
  moves : JSVal
  date : JSVal
deriving DecidableEq, Repr

/-- `Math.pow(2, 6) - 1` — the server-side minimum-possible-moves constant
(both variants), stated as its value 63 (see `minMovesServer_eq`). -/
def minMovesServer : Int := 63

theorem minMovesServer_eq : minMovesServer = 2 ^ 6 - 1 := by
  norm_num [minMovesServer]

namespace ServerJs

/-- A row of the `scores` table in `server.js`:
`(id, name, time, moves, date, ip_address)`. -/
structure Row where
  id : Nat
  name : String
  time : Int
  moves : Int
  date : Int
  ip : String
deriving DecidableEq, Repr

/-- `validateScore(score, ip)` from `server.js`.  Returns `some errorMessage`
for `{valid: false, error}` and `none` for `{valid: true}`.  The rate-limit
query `SELECT COUNT(*) ... WHERE ip_address = ? AND date > datetime("now",
"-1 hour")` counts stored rows by their client-supplied `date` column. -/
def validateScore (db : List Row) (now : Int) (score : ScoreBody)
    (ip : String) : Option String :=
  if ¬score.name.truthy ∨ ¬score.name.isString
      ∨ (jsTrim score.name.asString).length = 0 then
    some "Invalid name"
  else if 50 < score.name.asString.length then
    some "Name too long"
  else if ¬score.time.isNumber ∨ score.time.asNumber < 0
      ∨ 3600 < score.time.asNumber then
    some "Invalid time"
  else if ¬score.moves.isNumber ∨ score.moves.asNumber < 0 then
    some "Invalid moves"
  else if score.moves.asNumber < minMovesServer then
    some "Invalid number of moves"
  else if (jsDate score.date).isNone ∨ now < (jsDate score.date).getD 0 then
    some "Invalid date"
  else if 5 ≤ (db.filter
      (fun r => decide (r.ip = ip ∧ now - 3600 < r.date))).length then
    some "Too many submissions from this IP"
  else
    none

/-- `ORDER BY moves DESC, time DESC` as a total preorder: `a` may precede
`b`. -/
def worstLE (a b : Row) : Bool :=
  decide (b.moves < a.moves ∨ (a.moves = b.moves ∧ b.time ≤ a.time))

/-- `SELECT id FROM scores ORDER BY moves DESC, time DESC LIMIT 1` — the row
whose `id` the eviction deletes. -/
def worstRecord (db : List Row) : Option Row := (db.mergeSort worstLE).head?

/-- The row built by
`INSERT INTO scores (name, time, moves, date, ip_address) VALUES (...)`. -/
def insertedRow (nextId : Nat) (score : ScoreBody) (ip : String) : Row :=
  ⟨nextId, score.name.asString, score.time.asNumber, score.moves.asNumber,
    (jsDate score.date).getD 0, ip⟩

/-- Outcome of a `POST /api/scores` request: HTTP status, the `{error}` body
when present, and the table afterwards. -/
structure PostResp where
  status : Nat
  error : Option String
  db : List Row
deriving DecidableEq, Repr

/-- `app.post('/api/scores')` from `server.js`: validate; on failure answer
400 `{error}`; otherwise if the table holds ≥ 100 rows delete the single row
picked by `ORDER BY moves DESC, time DESC LIMIT 1`, then insert. -/
def postScore (db : List Row) (now : Int) (nextId : Nat) (score : ScoreBody)
    (ip : String) : PostResp :=
  match validateScore db now score ip with
  | some err => ⟨400, some err, db⟩
  | none =>
      let db1 :=
        if 100 ≤ db.length then
          match worstRecord db with
          | some w => db.filter (fun r => decide (r.id ≠ w.id))
          | none => db
        else db
      ⟨200, none, db1 ++ [insertedRow nextId score ip]⟩

/-- A leaderboard entry: `SELECT id, name, time, moves, date` — the
`ip_address` column is not part of this type at all. -/
structure OutRow where
  id : Nat
  name : String
  time : Int
  moves : Int
  date : Int
deriving DecidableEq, Repr

/-- `ORDER BY moves ASC, time ASC` as a total preorder. -/
def rankLE (a b : Row) : Bool :=
  decide (a.moves < b.moves ∨ (a.moves = b.moves ∧ a.time ≤ b.time))

/-- The ranking order on the records `GET` returns. -/
def outLE (a b : OutRow) : Prop :=
  a.moves < b.moves ∨ (a.moves = b.moves ∧ a.time ≤ b.time)

/-- The projection `SELECT id, name, time, moves, date FROM scores`. -/
def projRow (r : Row) : OutRow := ⟨r.id, r.name, r.time, r.moves, r.date⟩

/-- `app.get('/api/scores')` from `server.js`: the response list and the
table afterwards (a `SELECT` leaves it untouched). -/
def getScores (db : List Row) : List OutRow × List Row :=
  (((db.mergeSort rankLE).take 10).map projRow, db)

/-- Sequential `POST` requests against one table, starting from `db`; each
request carries its own clock value, fresh id, body and origin. -/
def runPosts (db : List Row) (reqs : List (Int × Nat × ScoreBody × String)) :
    List Row :=
  reqs.foldl (fun d q => (postScore d q.1 q.2.1 q.2.2.1 q.2.2.2).db) db

end ServerJs

namespace SimpleServer

/-- A row of the `scores` table in the simple variant: `(id, name, time,
moves, date)` — this schema has no `ip_address` column.  The `date` column
stores whatever the request carried (this variant never validates it). -/
structure Row where
  id : Nat
  name : String
  time : Int
  moves : Int
  date : JSVal
deriving DecidableEq, Repr

/-- `validateScore(score)` from the simple variant: no name-length cap, no
upper bound on `time`, no date or rate-limit checks. -/
def validateScore (score : ScoreBody) : Option String :=
  if ¬score.name.truthy ∨ ¬score.name.isString
      ∨ (jsTrim score.name.asString).length = 0 then
    some "Invalid name"
  else if ¬score.time.isNumber ∨ score.time.asNumber < 0 then
    some "Invalid time"
  else if ¬score.moves.isNumber ∨ score.moves.asNumber < 0 then
    some "Invalid moves"
  else if score.moves.asNumber < minMovesServer then
    some "Invalid number of moves"
  else
    none

/-- Outcome of a `POST /api/scores` request in the simple variant. -/
structure PostResp where
  status : Nat
  error : Option String
  db : List Row
deriving DecidableEq, Repr

/-- `app.post('/api/scores')` from the simple variant: validate, then insert
unconditionally (no capacity check, no eviction). -/
def postScore (db : List Row) (nextId : Nat) (score : ScoreBody) : PostResp :=
  match validateScore score with
  | some err => ⟨400, some err, db⟩
  | none =>
      ⟨200, none, db ++ [⟨nextId, score.name.asString, score.time.asNumber,
        score.moves.asNumber, score.date⟩]⟩

/-- `ORDER BY moves ASC, time ASC` on the simple variant's rows. -/
def rankLE (a b : Row) : Bool :=
  decide (a.moves < b.moves ∨ (a.moves = b.moves ∧ a.time ≤ b.time))

/-- `app.get('/api/scores')` from the simple variant: `SELECT * FROM scores
ORDER BY moves ASC, time ASC LIMIT 10` — `*` is exactly
`id, name, time, moves, date` here, and the table is untouched. -/
def getScores (db : List Row) : List Row × List Row :=
  ((db.mergeSort rankLE).take 10, db)

/-- `app.delete('/api/scores')`: `DELETE FROM scores`. -/
def deleteScores (_db : List Row) : List Row := []

end SimpleServer

/-! ### C5 — validation rules and their order -/

/-- Counterexample to C5 as stated: the simple backend variant accepts a
request whose `time` (5000) lies outside `0 ≤ time ≤ 3600` — it answers 200
and inserts the record instead of rejecting with 400. -/
theorem c5_counterexample :
    (SimpleServer.postScore [] 1
        ⟨.vstr "a", .vnum 5000, .vnum 63, .vnum 0⟩).status = 200 ∧
    (SimpleServer.postScore [] 1
        ⟨.vstr "a", .vnum 5000, .vnum 63, .vnum 0⟩).db ≠ [] := by
  constructor
  · rfl
  · decide

/-- Claim C5 as amended: in the `server.js` variant the rules hold exactly as
claimed — a name that is not a non-empty string after trimming is rejected
first (400, `{error: "Invalid name"}`), then a name over 50 characters (400,
`"Name too long"`), then a non-numeric or out-of-range time (400,
`"Invalid time"`), each leaving the store unchanged, with the name checks
applied before the time check.  In the simple variant only the
non-empty-name rule and the numeric/non-negative time rule are enforced
(there is no 50-character cap and no 3600 upper bound), again name before
time. -/
theorem c5_validation_name_before_time
    (db : List ServerJs.Row) (now : Int) (nextId : Nat) (score : ScoreBody)
    (ip : String) (db2 : List SimpleServer.Row) (nid2 : Nat) :
    (¬score.name.truthy ∨ ¬score.name.isString
        ∨ (jsTrim score.name.asString).length = 0 →
      (ServerJs.postScore db now nextId score ip).status = 400 ∧
      (ServerJs.postScore db now nextId score ip).error = some "Invalid name" ∧
      (ServerJs.postScore db now nextId score ip).db = db) ∧
    (score.name.truthy = true → score.name.isString = true →
      (jsTrim score.name.asString).length ≠ 0 →
      50 < score.name.asString.length →
      (ServerJs.postScore db now nextId score ip).status = 400 ∧
      (ServerJs.postScore db now nextId score ip).error = some "Name too long" ∧
      (ServerJs.postScore db now nextId score ip).db = db) ∧
    (score.name.truthy = true → score.name.isString = true →
      (jsTrim score.name.asString).length ≠ 0 →
      score.name.asString.length ≤ 50 →
      (¬score.time.isNumber ∨ score.time.asNumber < 0
        ∨ 3600 < score.time.asNumber) →
      (ServerJs.postScore db now nextId score ip).status = 400 ∧
      (ServerJs.postScore db now nextId score ip).error = some "Invalid time" ∧
      (ServerJs.postScore db now nextId score ip).db = db) ∧
    (¬score.name.truthy ∨ ¬score.name.isString
        ∨ (jsTrim score.name.asString).length = 0 →
      (SimpleServer.postScore db2 nid2 score).status = 400 ∧
      (SimpleServer.postScore db2 nid2 score).error = some "Invalid name" ∧
      (SimpleServer.postScore db2 nid2 score).db = db2) ∧
    (score.name.truthy = true → score.name.isString = true →
      (jsTrim score.name.asString).length ≠ 0 →
      (¬score.time.isNumber ∨ score.time.asNumber < 0) →
      (SimpleServer.postScore db2 nid2 score).status = 400 ∧
      (SimpleServer.postScore db2 nid2 score).error = some "Invalid time" ∧
      (SimpleServer.postScore db2 nid2 score).db = db2) := by
  refine ⟨?_, ?_, ?_, ?_, ?_⟩
  · intro h
    have he : ServerJs.validateScore db now score ip = some "Invalid name" := by
      unfold ServerJs.validateScore
      rw [if_pos h]
    simp [ServerJs.postScore, he]
  · intro h1 h2 h3 h4
    have hc1 : ¬(¬score.name.truthy ∨ ¬score.name.isString
        ∨ (jsTrim score.name.asString).length = 0) := by
      push_neg
      exact ⟨h1, h2, h3⟩
    have he : ServerJs.validateScore db now score ip = some "Name too long" := by
      unfold ServerJs.validateScore
      rw [if_neg hc1, if_pos h4]
    simp [ServerJs.postScore, he]
  · intro h1 h2 h3 h4 h5
    have hc1 : ¬(¬score.name.truthy ∨ ¬score.name.isString
        ∨ (jsTrim score.name.asString).length = 0) := by
      push_neg
      exact ⟨h1, h2, h3⟩
    have hc2 : ¬(50 < score.name.asString.length) := by omega
    have he : ServerJs.validateScore db now score ip = some "Invalid time" := by
      unfold ServerJs.validateScore
      rw [if_neg hc1, if_neg hc2, if_pos h5]
    simp [ServerJs.postScore, he]
  · intro h
    have he : SimpleServer.validateScore score = some "Invalid name" := by
      unfold SimpleServer.validateScore
      rw [if_pos h]
    simp [SimpleServer.postScore, he]
  · intro h1 h2 h3 h4
    have hc1 : ¬(¬score.name.truthy ∨ ¬score.name.isString
        ∨ (jsTrim score.name.asString).length = 0) := by
      push_neg
      exact ⟨h1, h2, h3⟩
    have he : SimpleServer.validateScore score = some "Invalid time" := by
      unfold SimpleServer.validateScore
      rw [if_neg hc1, if_pos h4]
    simp [SimpleServer.postScore, he]

/-- Witness for C5's amended theorem at a concrete input: an empty name is
rejected with 400 and `"Invalid name"` by the hardened server, leaving the
empty store empty. -/
theorem c5_validation_name_before_time_witness :
    (ServerJs.postScore [] 0 1
        ⟨.vstr "", .vnum 10, .vnum 70, .vnum 0⟩ "i").status = 400 ∧
    (ServerJs.postScore [] 0 1
        ⟨.vstr "", .vnum 10, .vnum 70, .vnum 0⟩ "i").error =
      some "Invalid name" ∧
    (ServerJs.postScore [] 0 1
        ⟨.vstr "", .vnum 10, .vnum 70, .vnum 0⟩ "i").db = [] :=
  (c5_validation_name_before_time [] 0 1
      ⟨.vstr "", .vnum 10, .vnum 70, .vnum 0⟩ "i" [] 1).1 (Or.inl (by decide))

/-! ### C6 — minimum-move anti-cheat gate -/

/-- Claim C6: in every backend variant, a `POST /scores` request whose
`moves` field is numeric and below the minimum possible `2^6 − 1 = 63` is
rejected with HTTP 400 and nothing is persisted. -/
theorem c6_min_moves_rejected
    (db : List ServerJs.Row) (now : Int) (nextId : Nat) (score : ScoreBody)
    (ip : String) (db2 : List SimpleServer.Row) (nid2 : Nat)
    (_hm : score.moves.isNumber = true) (hlt : score.moves.asNumber < 63) :
    (ServerJs.postScore db now nextId score ip).status = 400 ∧
    (ServerJs.postScore db now nextId score ip).db = db ∧
    (SimpleServer.postScore db2 nid2 score).status = 400 ∧
    (SimpleServer.postScore db2 nid2 score).db = db2 := by
  have hlt' : score.moves.asNumber < minMovesServer := hlt
  have h1 : ∃ e, ServerJs.validateScore db now score ip = some e := by
    unfold ServerJs.validateScore
    split_ifs <;> exact ⟨_, rfl⟩
  have h2 : ∃ e, SimpleServer.validateScore score = some e := by
    unfold SimpleServer.validateScore
    split_ifs <;> exact ⟨_, rfl⟩
  obtain ⟨e1, he1⟩ := h1
  obtain ⟨e2, he2⟩ := h2
  refine ⟨?_, ?_, ?_, ?_⟩ <;>
    simp [ServerJs.postScore, SimpleServer.postScore, he1, he2]

/-- Witness for C6 at a concrete input: a submission with `moves = 5` is
rejected by both variants and the empty stores stay empty. -/
theorem c6_min_moves_rejected_witness :
    (ServerJs.postScore [] 0 1
        ⟨.vstr "a", .vnum 10, .vnum 5, .vnum 0⟩ "i").status = 400 ∧
    (ServerJs.postScore [] 0 1
        ⟨.vstr "a", .vnum 10, .vnum 5, .vnum 0⟩ "i").db = [] ∧
    (SimpleServer.postScore [] 1
        ⟨.vstr "a", .vnum 10, .vnum 5, .vnum 0⟩).status = 400 ∧
    (SimpleServer.postScore [] 1
        ⟨.vstr "a", .vnum 10, .vnum 5, .vnum 0⟩).db = [] :=
  c6_min_moves_rejected [] 0 1 ⟨.vstr "a", .vnum 10, .vnum 5, .vnum 0⟩ "i" [] 1
    (by decide) (by decide)

/-! ### C7 — leaderboard query -/

theorem rankLE_total (a b : ServerJs.Row) :
    (ServerJs.rankLE a b || ServerJs.rankLE b a) = true := by
  unfold ServerJs.rankLE
  simp only [Bool.or_eq_true, decide_eq_true_eq]
  rcases lt_trichotomy a.moves b.moves with h | h | h
  · exact Or.inl (Or.inl h)
  · rcases le_total a.time b.time with ht | ht
    · exact Or.inl (Or.inr ⟨h, ht⟩)
    · exact Or.inr (Or.inr ⟨h.symm, ht⟩)
  · exact Or.inr (Or.inl h)

theorem rankLE_trans (a b c : ServerJs.Row) (hab : ServerJs.rankLE a b = true)
    (hbc : ServerJs.rankLE b c = true) : ServerJs.rankLE a c = true := by
  unfold ServerJs.rankLE at hab hbc ⊢
  simp only [decide_eq_true_eq] at hab hbc ⊢
  rcases hab with h1 | ⟨h1, h1t⟩ <;> rcases hbc with h2 | ⟨h2, h2t⟩
  · exact Or.inl (h1.trans h2)
  · exact Or.inl (h2 ▸ h1)
  · exact Or.inl (h1 ▸ h2)
  · exact Or.inr ⟨h1.trans h2, h1t.trans h2t⟩

theorem rankLE2_total (a b : SimpleServer.Row) :
    (SimpleServer.rankLE a b || SimpleServer.rankLE b a) = true := by
  unfold SimpleServer.rankLE
  simp only [Bool.or_eq_true, decide_eq_true_eq]
  rcases lt_trichotomy a.moves b.moves with h | h | h
  · exact Or.inl (Or.inl h)
  · rcases le_total a.time b.time with ht | ht
    · exact Or.inl (Or.inr ⟨h, ht⟩)
    · exact Or.inr (Or.inr ⟨h.symm, ht⟩)
  · exact Or.inr (Or.inl h)

theorem rankLE2_trans (a b c : SimpleServer.Row)
    (hab : SimpleServer.rankLE a b = true)
    (hbc : SimpleServer.rankLE b c = true) : SimpleServer.rankLE a c = true := by
  unfold SimpleServer.rankLE at hab hbc ⊢
  simp only [decide_eq_true_eq] at hab hbc ⊢
  rcases hab with h1 | ⟨h1, h1t⟩ <;> rcases hbc with h2 | ⟨h2, h2t⟩
  · exact Or.inl (h1.trans h2)
  · exact Or.inl (h2 ▸ h1)
  · exact Or.inl (h1 ▸ h2)
  · exact Or.inr ⟨h1.trans h2, h1t.trans h2t⟩

/-- Claim C7: for every store state, `GET /scores` returns at most 10
records, sorted by moves ascending with ties broken by time ascending; in
the hardened variant each returned record is the `{id, name, time, moves,
date}` projection of a stored row (the `ip_address` never appears — the
output type `OutRow` has no such field), in the simple variant each returned
record is a stored row (that schema has no ip column); and the store itself
is unchanged by the request. -/
theorem c7_get_scores (db : List ServerJs.Row) (db2 : List SimpleServer.Row) :
    (ServerJs.getScores db).1.length ≤ 10 ∧
    List.Pairwise ServerJs.outLE (ServerJs.getScores db).1 ∧
    (∀ o ∈ (ServerJs.getScores db).1, ∃ r ∈ db, o = ServerJs.projRow r) ∧
    (ServerJs.getScores db).2 = db ∧
    (SimpleServer.getScores db2).1.length ≤ 10 ∧
    List.Pairwise (fun a b => SimpleServer.rankLE a b = true)
      (SimpleServer.getScores db2).1 ∧
    (∀ o ∈ (SimpleServer.getScores db2).1, o ∈ db2) ∧
    (SimpleServer.getScores db2).2 = db2 := by
  refine ⟨?_, ?_, ?_, rfl, ?_, ?_, ?_, rfl⟩
  · simp only [ServerJs.getScores, List.length_map]
    exact List.length_take_le 10 _
  · have hs : List.Pairwise (fun a b => ServerJs.rankLE a b = true)
        (db.mergeSort ServerJs.rankLE) :=
      List.sorted_mergeSort rankLE_trans rankLE_total db
    have ht := hs.sublist (List.take_sublist 10 _)
    refine List.Pairwise.map ServerJs.projRow ?_ ht
    intro a b hab
    simpa [ServerJs.outLE, ServerJs.projRow, ServerJs.rankLE] using hab
  · intro o ho
    simp only [ServerJs.getScores, List.mem_map] at ho
    obtain ⟨r, hr, rfl⟩ := ho
    exact ⟨r, (List.mergeSort_perm db ServerJs.rankLE).mem_iff.mp
      (List.mem_of_mem_take hr), rfl⟩
  · simp only [SimpleServer.getScores]
    exact List.length_take_le 10 _
  · have hs : List.Pairwise (fun a b => SimpleServer.rankLE a b = true)
        (db2.mergeSort SimpleServer.rankLE) :=
      List.sorted_mergeSort rankLE2_trans rankLE2_total db2
    exact hs.sublist (List.take_sublist 10 _)
  · intro o ho
    exact (List.mergeSort_perm db2 SimpleServer.rankLE).mem_iff.mp
      (List.mem_of_mem_take ho)

/-- Witness for C7 at a concrete input: on a one-record store, the record
the query returns is the projection of that stored row. -/
theorem c7_get_scores_witness :
    ∃ r ∈ [(⟨1, "n", 100, 64, 0, "a"⟩ : ServerJs.Row)],
      ServerJs.projRow ⟨1, "n", 100, 64, 0, "a"⟩ = ServerJs.projRow r := by
  obtain ⟨-, -, hmem, -⟩ := c7_get_scores [⟨1, "n", 100, 64, 0, "a"⟩] []
  have h1 : (ServerJs.getScores [⟨1, "n", 100, 64, 0, "a"⟩]).1
      = [ServerJs.projRow ⟨1, "n", 100, 64, 0, "a"⟩] := by
    simp [ServerJs.getScores]
  exact hmem _ (h1 ▸ List.mem_singleton_self _)

/-! ### C8 — capacity cap and eviction of the worst record -/

theorem worstLE_total (a b : ServerJs.Row) :
    (ServerJs.worstLE a b || ServerJs.worstLE b a) = true := by
  unfold ServerJs.worstLE
  simp only [Bool.or_eq_true, decide_eq_true_eq]
  rcases lt_trichotomy a.moves b.moves with h | h | h
  · exact Or.inr (Or.inl h)
  · rcases le_total a.time b.time with ht | ht
    · exact Or.inr (Or.inr ⟨h.symm, ht⟩)
    · exact Or.inl (Or.inr ⟨h, ht⟩)
  · exact Or.inl (Or.inl h)

theorem worstLE_trans (a b c : ServerJs.Row)
    (hab : ServerJs.worstLE a b = true) (hbc : ServerJs.worstLE b c = true) :
    ServerJs.worstLE a c = true := by
  unfold ServerJs.worstLE at hab hbc ⊢
  simp only [decide_eq_true_eq] at hab hbc ⊢
  rcases hab with h1 | ⟨h1, h1t⟩ <;> rcases hbc with h2 | ⟨h2, h2t⟩
  · exact Or.inl (h2.trans h1)
  · exact Or.inl (h2 ▸ h1)
  · exact Or.inl (h1 ▸ h2)
  · exact Or.inr ⟨h2 ▸ h1, h2t.trans h1t⟩

/-- The row the eviction query picks exists, is stored, and is worst: every
stored row has fewer moves, or equal moves and at most its time. -/
theorem worstRecord_spec {db : List ServerJs.Row} (h : db ≠ []) :
    ∃ w, ServerJs.worstRecord db = some w ∧ w ∈ db ∧
      ∀ r ∈ db, r.moves < w.moves ∨ (r.moves = w.moves ∧ r.time ≤ w.time) := by
  unfold ServerJs.worstRecord
  have hperm := List.mergeSort_perm db ServerJs.worstLE
  have hsorted := List.sorted_mergeSort worstLE_trans worstLE_total db
  cases hms : db.mergeSort ServerJs.worstLE with
  | nil =>
      rw [hms] at hperm
      exact absurd (hperm.symm.eq_nil) h
  | cons w rest =>
      rw [hms] at hperm hsorted
      refine ⟨w, rfl, hperm.mem_iff.mp (List.mem_cons_self w rest), ?_⟩
      intro r hr
      rcases List.mem_cons.mp (hperm.mem_iff.mpr hr) with rfl | hrm
      · exact Or.inr ⟨rfl, le_refl _⟩
      · have h2 := (List.pairwise_cons.mp hsorted).1 r hrm
        unfold ServerJs.worstLE at h2
        simp only [decide_eq_true_eq] at h2
        rcases h2 with h2 | ⟨h2, h2t⟩
        · exact Or.inl h2
        · exact Or.inr ⟨h2.symm, h2t⟩

/-- With pairwise-distinct ids, deleting by the id of a stored row removes
exactly one row. -/
theorem filter_ne_id_length {db : List ServerJs.Row} {w : ServerJs.Row}
    (hnd : (db.map ServerJs.Row.id).Nodup) (hw : w ∈ db) :
    (db.filter (fun r => decide (r.id ≠ w.id))).length = db.length - 1 := by
  induction db with
  | nil => cases hw
  | cons a l ih =>
      rw [List.map_cons, List.nodup_cons] at hnd
      rcases List.mem_cons.mp hw with rfl | hw'
      · have hl : l.filter (fun r => decide (r.id ≠ w.id)) = l := by
          rw [List.filter_eq_self]
          intro r hr
          simp only [ne_eq, decide_eq_true_eq]
          intro hcontra
          exact hnd.1 (hcontra ▸ List.mem_map_of_mem ServerJs.Row.id hr)
        have hcond : (decide (w.id ≠ w.id)) = false := by simp
        rw [List.filter_cons, hcond, if_neg (by simp), hl, List.length_cons]
        omega
      · have haw : a.id ≠ w.id :=
          fun h => hnd.1 (h ▸ List.mem_map_of_mem ServerJs.Row.id hw')
        have hlen' := ih hnd.2 hw'
        have hpos : 0 < l.length := List.length_pos.mpr (List.ne_nil_of_mem hw')
        have hpa : (decide (a.id ≠ w.id)) = true := by simp [haw]
        rw [List.filter_cons, hpa]
        simp only [if_true, List.length_cons]
        omega

/-- One `POST` keeps the table within 100 rows. -/
theorem postScore_length_le {db : List ServerJs.Row} (h : db.length ≤ 100)
    (now : Int) (nextId : Nat) (score : ScoreBody) (ip : String) :
    (ServerJs.postScore db now nextId score ip).db.length ≤ 100 := by
  unfold ServerJs.postScore
  cases hq : ServerJs.validateScore db now score ip with
  | some e => simpa using h
  | none =>
      by_cases hc : 100 ≤ db.length
      · have hne : db ≠ [] := by
          intro h0
          rw [h0] at hc
          simp at hc
        obtain ⟨w, hwr, hwmem, -⟩ := worstRecord_spec hne
        have hlt : (db.filter (fun r => decide (r.id ≠ w.id))).length
            < db.length := by
          rw [List.length_filter_lt_length_iff_exists]
          exact ⟨w, hwmem, by simp⟩
        simp only [hc, if_true, hwr, List.length_append, List.length_cons,
          List.length_nil]
        omega
      · simp only [hc, if_false, List.length_append, List.length_cons,
          List.length_nil]
        omega

theorem runPosts_length_le (db : List ServerJs.Row)
    (reqs : List (Int × Nat × ScoreBody × String)) (h : db.length ≤ 100) :
    (ServerJs.runPosts db reqs).length ≤ 100 := by
  induction reqs generalizing db with
  | nil => exact h
  | cons q qs ih => exact ih _ (postScore_length_le h q.1 q.2.1 q.2.2.1 q.2.2.2)

/-- Counterexample to C8 as stated: the claim cites both backends, but the
simple variant's `POST` handler inserts unconditionally — no count check and
no eviction.  On a store already holding 100 rows, a valid submission is
accepted with 200 and the table grows to 101 rows; no record is deleted. -/
theorem c8_counterexample :
    (SimpleServer.postScore
        ((List.range 100).map (fun i => ⟨i + 1, "p", 100, 64, .vnum 0⟩))
        101 ⟨.vstr "a", .vnum 100, .vnum 64, .vnum 0⟩).status = 200 ∧
    (SimpleServer.postScore
        ((List.range 100).map (fun i => ⟨i + 1, "p", 100, 64, .vnum 0⟩))
        101 ⟨.vstr "a", .vnum 100, .vnum 64, .vnum 0⟩).db.length = 101 ∧
    (SimpleServer.postScore
        ((List.range 100).map (fun i => ⟨i + 1, "p", 100, 64, .vnum 0⟩))
        101 ⟨.vstr "a", .vnum 100, .vnum 64, .vnum 0⟩).db
      = ((List.range 100).map (fun i => ⟨i + 1, "p", 100, 64, .vnum 0⟩))
          ++ [⟨101, "a", 100, 64, .vnum 0⟩] := by
  refine ⟨?_, ?_, ?_⟩ <;> decide

/-- Claim C8 as amended (restricted to the `server.js` variant, the only one
with a capacity policy): that store never exceeds 100 records over any
sequence of `POST /scores` requests from an empty table; and when a valid
submission arrives with the table at exactly 100 rows (ids pairwise
distinct, as the `INTEGER PRIMARY KEY` guarantees), exactly one row — a
worst one: maximal moves, ties broken by maximal time — is deleted before
the new row is inserted, leaving the table at 100 rows.  The simple variant
performs no eviction (see the counterexample above). -/
theorem c8_capacity_eviction
    (reqs : List (Int × Nat × ScoreBody × String))
    (db : List ServerJs.Row) (now : Int) (nextId : Nat) (score : ScoreBody)
    (ip : String)
    (hnd : (db.map ServerJs.Row.id).Nodup) (hlen : db.length = 100)
    (hok : ServerJs.validateScore db now score ip = none) :
    (ServerJs.runPosts [] reqs).length ≤ 100 ∧
    ∃ w, w ∈ db ∧
      (∀ r ∈ db, r.moves < w.moves ∨ (r.moves = w.moves ∧ r.time ≤ w.time)) ∧
      (ServerJs.postScore db now nextId score ip).status = 200 ∧
      (ServerJs.postScore db now nextId score ip).db =
        db.filter (fun r => decide (r.id ≠ w.id)) ++
          [ServerJs.insertedRow nextId score ip] ∧
      (db.filter (fun r => decide (r.id ≠ w.id))).length = 99 ∧
      (ServerJs.postScore db now nextId score ip).db.length = 100 := by
  refine ⟨runPosts_length_le [] reqs (by simp), ?_⟩
  have hne : db ≠ [] := by
    intro h0
    rw [h0] at hlen
    simp at hlen
  obtain ⟨w, hwr, hwmem, hworst⟩ := worstRecord_spec hne
  have hc : 100 ≤ db.length := hlen.ge
  have hfl : (db.filter (fun r => decide (r.id ≠ w.id))).length = 99 := by
    rw [filter_ne_id_length hnd hwmem, hlen]
  have hdb : (ServerJs.postScore db now nextId score ip).db =
      db.filter (fun r => decide (r.id ≠ w.id)) ++
        [ServerJs.insertedRow nextId score ip] := by
    unfold ServerJs.postScore
    simp [hok, hc, hwr]
  refine ⟨w, hwmem, hworst, ?_, hdb, hfl, ?_⟩
  · unfold ServerJs.postScore
    simp [hok]
  · rw [hdb, List.length_append, hfl]
    rfl

/-- Witness for C8 at a concrete input: a full table of 100 rows (ids 1..100,
all with 64 moves and time 100) plus a fresh valid submission; the theorem
yields a post-state of exactly 100 rows. -/
theorem c8_capacity_eviction_witness :
    (ServerJs.postScore
        ((List.range 100).map (fun i => ⟨i + 1, "p", 100, 64, 0, "z"⟩))
        10000 101 ⟨.vstr "a", .vnum 100, .vnum 64, .vnum 9000⟩ "q").db.length
      = 100 := by
  have hnd : (((List.range 100).map
      (fun i => (⟨i + 1, "p", 100, 64, 0, "z"⟩ : ServerJs.Row))).map
        ServerJs.Row.id).Nodup := by
    rw [List.map_map]
    exact (List.nodup_range 100).map (fun a b h => by simpa using h)
  have hlen : ((List.range 100).map
      (fun i => (⟨i + 1, "p", 100, 64, 0, "z"⟩ : ServerJs.Row))).length = 100 := by
    simp
  have hok : ServerJs.validateScore
      ((List.range 100).map (fun i => ⟨i + 1, "p", 100, 64, 0, "z"⟩))
      10000 ⟨.vstr "a", .vnum 100, .vnum 64, .vnum 9000⟩ "q" = none := by
    decide
  obtain ⟨-, w, -, -, -, -, -, hfinal⟩ :=
    c8_capacity_eviction []
      ((List.range 100).map (fun i => ⟨i + 1, "p", 100, 64, 0, "z"⟩))
      10000 101 ⟨.vstr "a", .vnum 100, .vnum 64, .vnum 9000⟩ "q" hnd hlen hok
  exact hfinal

/-! ### C9 — rate limiting -/

/-- Counterexample to C9 as stated: six otherwise-valid submissions from the
one origin `"a"`, all at the same instant (hence all inserted within the
trailing hour), each carrying an old client-supplied `date` of epoch 0.  All
six are accepted — the sixth answers 200 instead of the claimed 400 — because
the rate-limit query counts rows by their client-supplied `date` column, not
by when they were inserted. -/
theorem c9_counterexample :
    (ServerJs.runPosts []
        ((List.range 6).map
          (fun i => (10000, i + 1, ⟨.vstr "n", .vnum 100, .vnum 64, .vnum 0⟩,
            "a")))).length = 6 ∧
    (ServerJs.postScore
        (ServerJs.runPosts []
          ((List.range 5).map
            (fun i => (10000, i + 1, ⟨.vstr "n", .vnum 100, .vnum 64, .vnum 0⟩,
              "a"))))
        10000 6 ⟨.vstr "n", .vnum 100, .vnum 64, .vnum 0⟩ "a").status
      = 200 := by
  constructor
  · decide
  · decide

/-- Claim C9 as amended: a `POST /scores` submission is rejected with 400 and
nothing is inserted whenever the store already holds at least 5 records
carrying the submitting origin's IP whose client-supplied `date` field lies
within the trailing hour.  (The code has no record of insertion time: the
rate-limit window is measured on the submitted `date` column, so prior
submissions carrying older `date` values do not count.) -/
theorem c9_rate_limit_by_submitted_date
    (db : List ServerJs.Row) (now : Int) (nextId : Nat) (score : ScoreBody)
    (ip : String)
    (h : 5 ≤ (db.filter
      (fun r => decide (r.ip = ip ∧ now - 3600 < r.date))).length) :
    (ServerJs.postScore db now nextId score ip).status = 400 ∧
    (ServerJs.postScore db now nextId score ip).db = db := by
  have hv : ∃ e, ServerJs.validateScore db now score ip = some e := by
    unfold ServerJs.validateScore
    split_ifs <;> exact ⟨_, rfl⟩
  obtain ⟨e, he⟩ := hv
  constructor <;> simp [ServerJs.postScore, he]

/-- Witness for C9's amended theorem at a concrete input: five stored records
from origin `"a"` dated within the trailing hour block the sixth submission
with a 400 and leave the store unchanged. -/
theorem c9_rate_limit_by_submitted_date_witness :
    (ServerJs.postScore
        ((List.range 5).map (fun i => ⟨i + 1, "n", 100, 64, 9000, "a"⟩))
        10000 6 ⟨.vstr "n", .vnum 100, .vnum 64, .vnum 9000⟩ "a").status
      = 400 ∧
    (ServerJs.postScore
        ((List.range 5).map (fun i => ⟨i + 1, "n", 100, 64, 9000, "a"⟩))
        10000 6 ⟨.vstr "n", .vnum 100, .vnum 64, .vnum 9000⟩ "a").db
      = (List.range 5).map (fun i => ⟨i + 1, "n", 100, 64, 9000, "a"⟩) :=
  c9_rate_limit_by_submitted_date
    ((List.range 5).map (fun i => ⟨i + 1, "n", 100, 64, 9000, "a"⟩))
    10000 6 ⟨.vstr "n", .vnum 100, .vnum 64, .vnum 9000⟩ "a" (by decide)

/-! ### C10 — a 400 answer never touches the store -/

/-- Claim C10: whenever `POST /scores` responds with HTTP 400 (validation or
rate-limit failure), the score store is completely unchanged — no record is
inserted and no eviction happens — in both backend variants. -/
theorem c10_reject_leaves_store_unchanged
    (db : List ServerJs.Row) (now : Int) (nextId : Nat) (score : ScoreBody)
    (ip : String) (db2 : List SimpleServer.Row) (nid2 : Nat)
    (score2 : ScoreBody) :
    ((ServerJs.postScore db now nextId score ip).status = 400 →
      (ServerJs.postScore db now nextId score ip).db = db) ∧
    ((SimpleServer.postScore db2 nid2 score2).status = 400 →
      (SimpleServer.postScore db2 nid2 score2).db = db2) := by
  constructor
  · intro h
    cases hq : ServerJs.validateScore db now score ip with
    | some e => simp [ServerJs.postScore, hq]
    | none => simp [ServerJs.postScore, hq] at h
  · intro h
    cases hq : SimpleServer.validateScore score2 with
    | some e => simp [SimpleServer.postScore, hq]
    | none => simp [SimpleServer.postScore, hq] at h

/-- Witness for C10 at a concrete input: a rejected submission (moves below
the minimum) leaves both one-record stores unchanged. -/
theorem c10_reject_leaves_store_unchanged_witness :
    ((ServerJs.postScore [⟨1, "n", 100, 64, 0, "a"⟩] 0 2
        ⟨.vstr "n", .vnum 10, .vnum 5, .vnum 0⟩ "a").db
      = [⟨1, "n", 100, 64, 0, "a"⟩]) ∧
    ((SimpleServer.postScore [⟨1, "n", 100, 64, .vnum 0⟩] 2
        ⟨.vstr "n", .vnum 10, .vnum 5, .vnum 0⟩).db
      = [⟨1, "n", 100, 64, .vnum 0⟩]) := by
  obtain ⟨h1, h2⟩ := c10_reject_leaves_store_unchanged
    [⟨1, "n", 100, 64, 0, "a"⟩] 0 2 ⟨.vstr "n", .vnum 10, .vnum 5, .vnum 0⟩ "a"
    [⟨1, "n", 100, 64, .vnum 0⟩] 2 ⟨.vstr "n", .vnum 10, .vnum 5, .vnum 0⟩
  exact ⟨h1 (by decide), h2 (by decide)⟩

end Score
